import Mathlib

/- Shallow embedding of the rustProxy traffic-interception and injection
   pipeline (src/config.rs, src/script_manager.rs, src/http_injector.rs,
   src/proxy.rs).  Rust strings are modelled as Lean String values; the Rust
   HashMap from String to String is modelled as an association list with
   unique keys and in-place insertion.  HashMap iteration order is
   unspecified in Rust (RandomState hashing), so every function that
   iterates over a map takes the iteration order as the list order of the
   model; the script registry (HashMap from name to InjectionScript) is
   likewise modelled as a list in one possible iteration order. -/

deriving instance DecidableEq for Except

namespace RustyProxy

/- Association-list model of HashMap::insert: replaces the value of an
   existing key in place, otherwise appends the new binding at the end. -/
def mapInsert : List (String × String) → String → String → List (String × String)
  | [], k, v => [(k, v)]
  | (k', v') :: rest, k, v =>
    if k' = k then (k, v) :: rest else (k', v') :: mapInsert rest k v

/- Association-list model of HashMap::get. -/
def mapLookup : List (String × String) → String → Option String
  | [], _ => none
  | (k', v') :: rest, k => if k' = k then some v' else mapLookup rest k

/- Substring containment over character lists: model of Rust str::contains
   for literal patterns. -/
def containsSubL (pat : List Char) : List Char → Bool
  | [] => pat.isEmpty
  | c :: cs => pat.isPrefixOf (c :: cs) || containsSubL pat cs

def strContains (s pat : String) : Bool := containsSubL pat.data s.data

/- Fueled model of Rust str::replace: non-overlapping, leftmost-first
   replacement of every occurrence of a non-empty literal pattern.  The
   fuel is the length of the subject; each step consumes at least one
   character, so the fuel is never exhausted when it starts at the
   subject's length. -/
def replaceAllFuel (pat rep : List Char) : Nat → List Char → List Char
  | _, [] => []
  | 0, s => s
  | fuel + 1, c :: cs =>
    if pat.isPrefixOf (c :: cs) && !pat.isEmpty then
      rep ++ replaceAllFuel pat rep fuel (cs.drop (pat.length - 1))
    else
      c :: replaceAllFuel pat rep fuel cs

def strReplace (s pat rep : String) : String :=
  String.mk (replaceAllFuel pat.data rep.data s.data.length s.data)

/- Segments of a character list between the non-overlapping, leftmost
   occurrences of a non-empty pattern (fueled like replaceAllFuel). -/
def splitOnFuel (pat : List Char) : Nat → List Char → List (List Char)
  | _, [] => [[]]
  | 0, s => [s]
  | fuel + 1, c :: cs =>
    if pat.isPrefixOf (c :: cs) && !pat.isEmpty then
      [] :: splitOnFuel pat fuel (cs.drop (pat.length - 1))
    else
      match splitOnFuel pat fuel cs with
      | [] => [[c]]
      | seg :: rest => (c :: seg) :: rest

def interL (sep : List Char) : List (List Char) → List Char
  | [] => []
  | [s] => s
  | s :: rest => s ++ sep ++ interL sep rest

/- Specification-side description of anchor splicing: split the body at
   every occurrence of the anchor and re-join it with the insertion text
   placed immediately before each anchor occurrence. -/
def insertBeforeEach (s anchor ins : String) : String :=
  String.mk (interL (ins.data ++ anchor.data)
    (splitOnFuel anchor.data s.data.length s.data))

def strStartsWith (s pre : String) : Bool := pre.data.isPrefixOf s.data

def strEndsWith (s suf : String) : Bool := suf.data.isSuffixOf s.data

def strDropChars (s : String) (n : Nat) : String := String.mk (s.data.drop n)

/- Model of str::to_lowercase as used on header names (ASCII case folding;
   header names contain only ASCII). -/
def strLower (s : String) : String := String.mk (s.data.map Char.toLower)

/- Number of bytes of the UTF-8 encoding of one code point. -/
def cpUtf8Size (c : Nat) : Nat :=
  if c < 0x80 then 1 else if c < 0x800 then 2 else if c < 0x10000 then 3 else 4

/- Byte length of the UTF-8 encoding of a string: Rust String::len. -/
def strUtf8Len (s : String) : Nat := s.data.foldl (fun n c => n + cpUtf8Size c.toNat) 0

/- config.rs: the configuration records (numeric widths are irrelevant to
   the verified behavior and are modelled as Nat). -/

structure ProxyConfig where
  bind_address : String
  port : Nat
  upstream_timeout : Nat
  max_connections : Nat
  buffer_size : Nat
deriving DecidableEq

structure ScriptConfig where
  directory : String
  enabled : Bool
  max_execution_time : Nat
  allowed_domains : List String
  blocked_domains : List String
deriving DecidableEq

structure LoggingConfig where
  level : String
  file : Option String
  max_size : String
  max_files : Nat
deriving DecidableEq

structure SecurityConfig where
  require_auth : Bool
  auth_token : Option String
  rate_limit : Nat
  whitelist_ips : List String
  blacklist_ips : List String
deriving DecidableEq

structure Config where
  proxy : ProxyConfig
  scripts : ScriptConfig
  logging : LoggingConfig
  security : SecurityConfig
deriving DecidableEq

/- config.rs, Config::is_domain_allowed (lines 102-114). -/
def is_domain_allowed (cfg : Config) (domain : String) : Bool :=
  if cfg.scripts.blocked_domains.contains domain then false
  else if cfg.scripts.allowed_domains.contains "*" then true
  else cfg.scripts.allowed_domains.any fun allowed =>
    domain == allowed || strEndsWith domain ("." ++ allowed)

/- config.rs, Config::is_ip_allowed (lines 116-126). -/
def is_ip_allowed (cfg : Config) (ip : String) : Bool :=
  if !cfg.security.blacklist_ips.isEmpty && cfg.security.blacklist_ips.contains ip then
    false
  else if cfg.security.whitelist_ips.isEmpty then true
  else cfg.security.whitelist_ips.contains ip

/- script_manager.rs: rule records and the injection engine. -/

inductive InjectType where
  | Header
  | Body
  | ResponseHeader
  | ResponseBody
  | JavaScript
  | CSS
deriving DecidableEq

structure InjectionScript where
  name : String
  description : String
  version : String
  author : String
  target_domains : List String
  inject_type : InjectType
  script_content : String
  headers : List (String × String)
  enabled : Bool
deriving DecidableEq

structure InjectionResult where
  modified : Bool
  headers : Option (List (String × String))
  body : Option String
  javascript : Option String
  css : Option String
deriving DecidableEq

def emptyInjectionResult : InjectionResult := ⟨false, none, none, none, none⟩

/- script_manager.rs, ScriptManager::domain_matches (lines 110-130).  The
   regex oracle rm models regex::Regex: rm p d is true exactly when
   Regex::new(p) compiles and the compiled regex matches d; a pattern whose
   compilation fails is skipped by the source, which the oracle models by
   returning false for it. -/
def domain_matches (rm : String → String → Bool) (domain : String) : List String → Bool
  | [] => false
  | p :: rest =>
    if p = "*" ∨ p = domain then true
    else if strStartsWith p "*." && strEndsWith domain (strDropChars p 2) then true
    else if rm p domain then true
    else domain_matches rm domain rest

/- Regex oracle for runs in which no regex branch fires: in particular
   Regex::new rejects the pattern "*.example.com" (a repetition operator
   with nothing to repeat), so on that pattern this oracle is exact. -/
def regexNone : String → String → Bool := fun _ _ => false

/- script_manager.rs, ScriptManager::get_scripts_for_domain (lines
   101-108); the script list stands for HashMap::values() in one possible
   iteration order. -/
def get_scripts_for_domain (rm : String → String → Bool)
    (scripts : List InjectionScript) (domain : String) : List InjectionScript :=
  scripts.filter fun s => s.enabled && domain_matches rm domain s.target_domains

def foldHeadersInto (hs : List (String × String)) (m : List (String × String)) :
    List (String × String) :=
  hs.foldl (fun acc kv => mapInsert acc kv.1 kv.2) m

/- One iteration of the rule loop in apply_request_injections
   (script_manager.rs lines 142-168), acting on (headers, body, result). -/
def applyRequestStep
    (acc : List (String × String) × String × InjectionResult)
    (s : InjectionScript) : List (String × String) × String × InjectionResult :=
  let (h, b, r) := acc
  match s.inject_type with
  | .Header =>
    (foldHeadersInto s.headers h, b, { r with modified := r.modified || !s.headers.isEmpty })
  | .Body =>
    if s.script_content ≠ "" then (h, b ++ s.script_content, { r with modified := true })
    else (h, b, r)
  | .JavaScript =>
    (h, b, { r with javascript := some s.script_content, modified := true })
  | .CSS =>
    (h, b, { r with css := some s.script_content, modified := true })
  | _ => (h, b, r)

/- script_manager.rs, ScriptManager::apply_request_injections (lines
   132-171); the source mutates headers and body in place and returns the
   InjectionResult, modelled here by returning all three. -/
def apply_request_injections (rm : String → String → Bool)
    (scripts : List InjectionScript) (domain : String)
    (h : List (String × String)) (b : String) :
    List (String × String) × String × InjectionResult :=
  (get_scripts_for_domain rm scripts domain).foldl applyRequestStep
    (h, b, emptyInjectionResult)

/- One iteration of the rule loop in apply_response_injections
   (script_manager.rs lines 183-218). -/
def applyResponseStep
    (acc : List (String × String) × String × InjectionResult)
    (s : InjectionScript) : List (String × String) × String × InjectionResult :=
  let (h, b, r) := acc
  match s.inject_type with
  | .ResponseHeader =>
    (foldHeadersInto s.headers h, b, { r with modified := r.modified || !s.headers.isEmpty })
  | .ResponseBody =>
    if s.script_content ≠ "" then
      if strContains b "</body>" then
        (h, strReplace b "</body>" (s.script_content ++ "</body>"),
         { r with modified := true })
      else (h, b ++ s.script_content, { r with modified := true })
    else (h, b, r)
  | .JavaScript =>
    if strContains b "</head>" then
      (h, strReplace b "</head>" ("<script>" ++ s.script_content ++ "</script>" ++ "</head>"),
       { r with modified := true })
    else (h, b, r)
  | .CSS =>
    if strContains b "</head>" then
      (h, strReplace b "</head>" ("<style>" ++ s.script_content ++ "</style>" ++ "</head>"),
       { r with modified := true })
    else (h, b, r)
  | _ => (h, b, r)

/- script_manager.rs, ScriptManager::apply_response_injections (lines
   173-221). -/
def apply_response_injections (rm : String → String → Bool)
    (scripts : List InjectionScript) (domain : String)
    (h : List (String × String)) (b : String) :
    List (String × String) × String × InjectionResult :=
  (get_scripts_for_domain rm scripts domain).foldl applyResponseStep
    (h, b, emptyInjectionResult)

/- http_injector.rs and proxy.rs: the message rebuilder and the request
   handler.  Network transport (hyper Body reads, the upstream client, the
   CONNECT TCP dial) is external to the repository; the upstream server is
   modelled as an oracle from requests to responses and tunnel
   establishment as a boolean oracle.  Header syntactic validity is decided
   by the external hyper crate, modelled by the two predicates vN (header
   name) and vV (header value). -/

inductive Method where
  | GET
  | POST
  | PUT
  | DELETE
  | HEAD
  | OPTIONS
  | PATCH
  | CONNECT
deriving DecidableEq

structure ReqM where
  method : Method
  host : String
  headers : List (String × String)
  body : String
deriving DecidableEq

structure RespModel where
  status : Nat
  headers : List (String × String)
  body : String
deriving DecidableEq

/- http_injector.rs, HttpInjector::headers_to_map (lines 109-117): header
   names are lower-cased; the wire model already carries text values, so
   the value_str conversion never drops an entry here. -/
def headersToMap (hs : List (String × String)) : List (String × String) :=
  hs.foldl (fun m kv => mapInsert m (strLower kv.1) kv.2) []

/- http_injector.rs, HttpInjector::map_to_headers (lines 119-127):
   rebuilding a HeaderMap fails on the first entry whose name or value is
   not protocol-valid; the error strings are the Display output of hyper's
   InvalidHeaderName and InvalidHeaderValue. -/
def map_to_headers (vN vV : String → Bool) :
    List (String × String) → Except String (List (String × String))
  | [] => .ok []
  | (n, v) :: rest =>
    if !vN n then .error "invalid HTTP header name"
    else if !vV v then .error "failed to parse header value"
    else
      match map_to_headers vN vV rest with
      | .error e => .error e
      | .ok hs => .ok ((n, v) :: hs)

/- The headers/body/result state after the request-direction injection
   pass of HttpInjector::process_request (lines 32-54): decoded headers,
   the body read only for POST and PUT, and the engine pass when scripts
   are enabled. -/
def requestInjected (rm : String → String → Bool) (cfg : Config)
    (scripts : List InjectionScript) (req : ReqM) :
    List (String × String) × String × InjectionResult :=
  let hm := headersToMap req.headers
  let b0 := if req.method = .POST ∨ req.method = .PUT then req.body else ""
  if cfg.scripts.enabled then apply_request_injections rm scripts req.host hm b0
  else (hm, b0, emptyInjectionResult)

/- http_injector.rs, HttpInjector::process_request (lines 23-67).  A
   disallowed domain short-circuits to the unmodified request; otherwise
   the mutated headers are re-encoded (an encoding failure propagates) and
   the request is rebuilt with the mutated body (an empty body string
   becomes Body::empty, which carries the same bytes as the empty
   string). -/
def process_request (rm : String → String → Bool) (vN vV : String → Bool)
    (cfg : Config) (scripts : List InjectionScript) (req : ReqM) :
    Except String ReqM :=
  if !is_domain_allowed cfg req.host then .ok req
  else
    match map_to_headers vN vV (requestInjected rm cfg scripts req).1 with
    | .error e => .error e
    | .ok hs => .ok { req with headers := hs, body := (requestInjected rm cfg scripts req).2.1 }

/- The headers/body/result state after the response-direction injection
   pass of HttpInjector::process_response (lines 74-96). -/
def responseInjected (rm : String → String → Bool) (cfg : Config)
    (scripts : List InjectionScript) (domain : String) (res : RespModel) :
    List (String × String) × String × InjectionResult :=
  let hm := headersToMap res.headers
  if cfg.scripts.enabled then apply_response_injections rm scripts domain hm res.body
  else (hm, res.body, emptyInjectionResult)

/- The response headers emitted by process_response before re-encoding:
   when scripts are enabled and the pass reported a modification, the
   content-length header is set to the byte length of the final body
   (http_injector.rs lines 85-90). -/
def responseHeadersOut (rm : String → String → Bool) (cfg : Config)
    (scripts : List InjectionScript) (domain : String) (res : RespModel) :
    List (String × String) :=
  let step := responseInjected rm cfg scripts domain res
  if cfg.scripts.enabled && step.2.2.modified then
    mapInsert step.1 "content-length" (toString (strUtf8Len step.2.1))
  else step.1

/- http_injector.rs, HttpInjector::process_response (lines 69-103). -/
def process_response (rm : String → String → Bool) (vN vV : String → Bool)
    (cfg : Config) (scripts : List InjectionScript) (domain : String)
    (res : RespModel) : Except String RespModel :=
  if !is_domain_allowed cfg domain then .ok res
  else
    match map_to_headers vN vV (responseHeadersOut rm cfg scripts domain res) with
    | .error e => .error e
    | .ok hs => .ok ⟨res.status, hs, (responseInjected rm cfg scripts domain res).2.1⟩

/- http_injector.rs, HttpInjector::create_blocked_response (lines
   129-157).  The format! template is reproduced literally; the doubled
   braces of the template emit literal braces, written here with hex
   escapes. -/
def blockedBodyPre : String :=
  "<!DOCTYPE html>\n<html>\n<head>\n    <title>Blocked by Rusty Proxy</title>\n    <style>\n        body \x7b font-family: Arial, sans-serif; margin: 40px; \x7d\n        .error \x7b color: #d32f2f; \x7d\n        .info \x7b color: #1976d2; \x7d\n    </style>\n</head>\n<body>\n    <h1 class=\"error\">Access Blocked</h1>\n    <p class=\"info\">This request was blocked by Rusty Proxy.</p>\n    <p><strong>Reason:</strong> "

def blockedBodyPost : String :=
  "</p>\n    <p><em>Powered by Rusty Proxy v0.1.0</em></p>\n</body>\n</html>"

def create_blocked_response (reason : String) : RespModel :=
  let b := blockedBodyPre ++ reason ++ blockedBodyPost
  ⟨403, [("content-type", "text/html"), ("content-length", toString (strUtf8Len b))], b⟩

/- http_injector.rs, HttpInjector::create_error_response (lines 159-187). -/
def errorBodyPre : String :=
  "<!DOCTYPE html>\n<html>\n<head>\n    <title>Proxy Error</title>\n    <style>\n        body \x7b font-family: Arial, sans-serif; margin: 40px; \x7d\n        .error \x7b color: #d32f2f; \x7d\n    </style>\n</head>\n<body>\n    <h1 class=\"error\">Proxy Error</h1>\n    <p>An error occurred while processing your request:</p>\n    <p><strong>"

def errorBodyPost : String :=
  "</strong></p>\n    <p><em>Powered by Rusty Proxy v0.1.0</em></p>\n</body>\n</html>"

def create_error_response (e : String) : RespModel :=
  let b := errorBodyPre ++ e ++ errorBodyPost
  ⟨500, [("content-type", "text/html"), ("content-length", toString (strUtf8Len b))], b⟩

structure HandleOutcome where
  resp : RespModel
  forwarded : Bool
deriving DecidableEq

/- proxy.rs, ProxyServer::handle_request (lines 69-125) together with
   handle_connect (156-180).  The client IP is the hard-coded "127.0.0.1"
   of proxy.rs line 75.  upstream models forward_request (a timeout or
   connection failure is an error whose message surfaces in the error
   page); tunnelOk models establish_tunnel.  The forwarded flag records
   whether forward_request was invoked, i.e. whether the request went
   upstream. -/
def handle_request (rm : String → String → Bool) (vN vV : String → Bool)
    (cfg : Config) (scripts : List InjectionScript)
    (upstream : ReqM → Except String RespModel) (tunnelOk : Bool)
    (req : ReqM) : HandleOutcome :=
  if !is_ip_allowed cfg "127.0.0.1" then
    ⟨create_blocked_response "IP address not allowed", false⟩
  else
    match process_request rm vN vV cfg scripts req with
    | .error e => ⟨create_error_response e, false⟩
    | .ok req2 =>
      if req2.method = .CONNECT then
        ⟨if tunnelOk then ⟨200, [], ""⟩ else ⟨500, [], "Failed to establish tunnel"⟩, false⟩
      else
        match upstream req2 with
        | .error e => ⟨create_error_response e, true⟩
        | .ok res =>
          match process_response rm vN vV cfg scripts req.host res with
          | .error e => ⟨create_error_response e, true⟩
          | .ok res2 => ⟨res2, true⟩

/- Byte-level view of the request-body handling of process_request
   (http_injector.rs lines 27-30, 37-40, 60-66).  Bytes are Nat values
   below 256; a decoded Rust String is a sequence of Unicode scalar
   values, modelled as a list of Nat code points.  utf8DecodeLossy models
   String::from_utf8_lossy, which follows the WHATWG UTF-8 decoder:
   every maximal invalid subpart is replaced by one U+FFFD replacement
   character, resuming at the first offending byte. -/

def isCont (b : Nat) : Prop := 0x80 ≤ b ∧ b ≤ 0xBF

instance (b : Nat) : Decidable (isCont b) := by unfold isCont; infer_instance

/- The decoder loop, fueled so that the recursion is structural: each step
   consumes one unit of fuel and at least one byte, so starting the fuel at
   the byte count never exhausts it (the fuel-zero arm on a non-empty list
   is unreachable from utf8DecodeLossy). -/
def utf8DecodeFuel : Nat → List Nat → List Nat
  | _, [] => []
  | 0, _ :: _ => []
  | fuel + 1, b0 :: tail =>
    if b0 < 0x80 then b0 :: utf8DecodeFuel fuel tail
    else if 0xC2 ≤ b0 ∧ b0 ≤ 0xDF then
      match tail with
      | [] => [0xFFFD]
      | b1 :: t1 =>
        if isCont b1 then ((b0 - 0xC0) * 0x40 + (b1 - 0x80)) :: utf8DecodeFuel fuel t1
        else 0xFFFD :: utf8DecodeFuel fuel tail
    else if 0xE0 ≤ b0 ∧ b0 ≤ 0xEF then
      match tail with
      | [] => [0xFFFD]
      | b1 :: t1 =>
        if (if b0 = 0xE0 then 0xA0 ≤ b1 ∧ b1 ≤ 0xBF
            else if b0 = 0xED then 0x80 ≤ b1 ∧ b1 ≤ 0x9F
            else isCont b1) then
          match t1 with
          | [] => [0xFFFD]
          | b2 :: t2 =>
            if isCont b2 then
              ((b0 - 0xE0) * 0x1000 + (b1 - 0x80) * 0x40 + (b2 - 0x80)) ::
                utf8DecodeFuel fuel t2
            else 0xFFFD :: utf8DecodeFuel fuel t1
        else 0xFFFD :: utf8DecodeFuel fuel tail
    else if 0xF0 ≤ b0 ∧ b0 ≤ 0xF4 then
      match tail with
      | [] => [0xFFFD]
      | b1 :: t1 =>
        if (if b0 = 0xF0 then 0x90 ≤ b1 ∧ b1 ≤ 0xBF
            else if b0 = 0xF4 then 0x80 ≤ b1 ∧ b1 ≤ 0x8F
            else isCont b1) then
          match t1 with
          | [] => [0xFFFD]
          | b2 :: t2 =>
            if isCont b2 then
              match t2 with
              | [] => [0xFFFD]
              | b3 :: t3 =>
                if isCont b3 then
                  ((b0 - 0xF0) * 0x40000 + (b1 - 0x80) * 0x1000 +
                    (b2 - 0x80) * 0x40 + (b3 - 0x80)) :: utf8DecodeFuel fuel t3
                else 0xFFFD :: utf8DecodeFuel fuel t2
            else 0xFFFD :: utf8DecodeFuel fuel t1
        else 0xFFFD :: utf8DecodeFuel fuel tail
    else 0xFFFD :: utf8DecodeFuel fuel tail

def utf8DecodeLossy (l : List Nat) : List Nat := utf8DecodeFuel l.length l

/- UTF-8 encoding of one scalar value (the byte layout produced when a
   Rust String is turned into a Body). -/
def utf8EncodeCp (c : Nat) : List Nat :=
  if c < 0x80 then [c]
  else if c < 0x800 then [0xC0 + c / 0x40, 0x80 + c % 0x40]
  else if c < 0x10000 then
    [0xE0 + c / 0x1000, 0x80 + c / 0x40 % 0x40, 0x80 + c % 0x40]
  else
    [0xF0 + c / 0x40000, 0x80 + c / 0x1000 % 0x40, 0x80 + c / 0x40 % 0x40,
     0x80 + c % 0x40]

def utf8Encode (cps : List Nat) : List Nat :=
  cps.foldr (fun c acc => utf8EncodeCp c ++ acc) []

/- The Unicode scalar values a Rust String may contain. -/
def ValidCp (c : Nat) : Prop := c < 0xD800 ∨ (0xE000 ≤ c ∧ c < 0x110000)

def strCodepoints (s : String) : List Nat := s.data.map Char.toNat

/- The body effect of one request-direction engine pass, at the code-point
   level: Body rules with non-empty payload append their payload
   (script_manager.rs lines 150-155); no other inject type touches the
   request body. -/
def requestBodyCps (rm : String → String → Bool) (cfg : Config)
    (scripts : List InjectionScript) (host : String) (s0 : List Nat) : List Nat :=
  if cfg.scripts.enabled then
    (get_scripts_for_domain rm scripts host).foldl
      (fun b s =>
        match s.inject_type with
        | .Body => if s.script_content ≠ "" then b ++ strCodepoints s.script_content else b
        | _ => b) s0
  else s0

/- Byte-level model of the forwarded request body produced by
   process_request: a disallowed domain returns the original request with
   its original body; otherwise the body bytes are read only for POST and
   PUT, decoded lossily, passed through the engine, and re-encoded
   (http_injector.rs lines 27-30, 37-40, 60-66). -/
def bodyBytesForward (rm : String → String → Bool) (cfg : Config)
    (scripts : List InjectionScript) (host : String) (method : Method)
    (clientBody : List Nat) : List Nat :=
  if !is_domain_allowed cfg host then clientBody
  else
    let s0 := if method = .POST ∨ method = .PUT then utf8DecodeLossy clientBody else []
    utf8Encode (requestBodyCps rm cfg scripts host s0)

/- Concrete configurations, rule records and oracles used at concrete
   inputs by the claim witnesses and counterexamples below. -/

def c5Script : InjectionScript :=
  ⟨"append-y", "", "1.0", "", ["*"], InjectType.ResponseBody, "Y", [], true⟩

def c6Script : InjectionScript :=
  ⟨"alerter", "", "1.0", "", ["*"], InjectType.JavaScript, "alert(1)", [], true⟩

def c7Script : InjectionScript :=
  ⟨"js-empty", "", "1.0", "", ["*"], InjectType.JavaScript, "", [], true⟩

def c7BodyScript : InjectionScript :=
  ⟨"body-empty", "", "1.0", "", ["*"], InjectType.Body, "", [], true⟩

def c3A : InjectionScript :=
  ⟨"a-rule", "", "1.0", "", ["*"], InjectType.Header, "", [("x-k", "1")], true⟩

def c3B : InjectionScript :=
  ⟨"b-rule", "", "1.0", "", ["*"], InjectType.Header, "", [("x-k", "2")], true⟩

/- Header-validity oracle for concrete runs whose headers are all
   protocol-valid. -/
def headerAlwaysValid : String → Bool := fun _ => true

def c4Config : Config :=
  ⟨⟨"127.0.0.1", 8080, 30, 1000, 8192⟩,
   ⟨"scripts", true, 5000, ["*"], []⟩,
   ⟨"info", none, "10MB", 5⟩,
   ⟨false, none, 100, [], []⟩⟩

def c4HeaderScript : InjectionScript :=
  ⟨"cors", "", "1.0", "", ["*"], InjectType.ResponseHeader, "", [("x-debug", "1")], true⟩

def c4BodyScript : InjectionScript :=
  ⟨"y", "", "1.0", "", ["*"], InjectType.ResponseBody, "Y", [], true⟩

def c1Config : Config :=
  ⟨⟨"127.0.0.1", 8080, 30, 1000, 8192⟩,
   ⟨"scripts", true, 5000, ["*"], ["bad.com"]⟩,
   ⟨"info", none, "10MB", 5⟩,
   ⟨false, none, 100, [], []⟩⟩

def c1Upstream : ReqM → Except String RespModel :=
  fun _ => .ok ⟨200, [("content-length", "2")], "ok"⟩

def c9Config : Config :=
  ⟨⟨"127.0.0.1", 8080, 30, 1000, 8192⟩,
   ⟨"scripts", true, 5000, ["*"], []⟩,
   ⟨"info", none, "10MB", 5⟩,
   ⟨false, none, 100, [], []⟩⟩

def c9Script : InjectionScript :=
  ⟨"bad-header", "", "1.0", "", ["*"], InjectType.Header, "", [("Bad Header", "1")], true⟩

/- Validity oracle rejecting header names that contain a space, as the
   protocol header grammar does. -/
def headerNameNoSpace : String → Bool := fun n => !strContains n " "

instance (c : Nat) : Decidable (ValidCp c) := by unfold ValidCp; infer_instance

def c10Config : Config :=
  ⟨⟨"127.0.0.1", 8080, 30, 1000, 8192⟩,
   ⟨"scripts", true, 5000, ["*"], []⟩,
   ⟨"info", none, "10MB", 5⟩,
   ⟨false, none, 100, [], []⟩⟩

def c10BodyScript : InjectionScript :=
  ⟨"z", "", "1.0", "", ["*"], InjectType.Body, "Z", [], true⟩

/- Helper lemmas about the association-list map model. -/

theorem mapLookup_mapInsert_self (m : List (String × String)) (k v : String) :
    mapLookup (mapInsert m k v) k = some v := by
  induction m with
  | nil => simp [mapInsert, mapLookup]
  | cons kv rest ih =>
    obtain ⟨k', v'⟩ := kv
    by_cases h : k' = k
    · simp [mapInsert, h, mapLookup]
    · simp [mapInsert, h, mapLookup, ih]

theorem foldHeadersInto_single (k v : String) (m : List (String × String)) :
    foldHeadersInto [(k, v)] m = mapInsert m k v := rfl

/- Re-encoding succeeds only by reproducing the input header list. -/
theorem map_to_headers_ok_eq (vN vV : String → Bool) :
    ∀ l hs, map_to_headers vN vV l = .ok hs → hs = l := by
  intro l
  induction l with
  | nil => intro hs h; simpa [map_to_headers] using h.symm
  | cons kv rest ih =>
    intro hs h
    obtain ⟨n, v⟩ := kv
    by_cases hn : vN n
    · by_cases hv : vV v
      · simp only [map_to_headers, hn, hv, Bool.not_true] at h
        cases hrec : map_to_headers vN vV rest with
        | error e => rw [hrec] at h; simp at h
        | ok hs' => rw [hrec] at h; simp at h; rw [← h, ih hs' hrec]
      · simp [map_to_headers, hn, hv] at h
    · simp [map_to_headers, hn] at h

/- Re-encoding fails whenever the map holds an entry whose name or value is
   not protocol-valid. -/
theorem map_to_headers_error_of_invalid (vN vV : String → Bool) :
    ∀ (l : List (String × String)) (n v : String), (n, v) ∈ l →
      (vN n = false ∨ vV v = false) →
      ∃ e, map_to_headers vN vV l = .error e := by
  intro l
  induction l with
  | nil => intro n v h; simp at h
  | cons kv rest ih =>
    intro n v hmem hbad
    obtain ⟨n', v'⟩ := kv
    by_cases hn : vN n'
    · by_cases hv : vV v'
      · rcases List.mem_cons.mp hmem with heq | htail
        · obtain ⟨h1, h2⟩ := Prod.mk.injEq .. ▸ heq
          rcases hbad with hb | hb
          · simp [h1, hn] at hb
          · simp [h2, hv] at hb
        · obtain ⟨e, he⟩ := ih n v htail hbad
          exact ⟨e, by simp [map_to_headers, hn, hv, he]⟩
      · exact ⟨"failed to parse header value", by simp [map_to_headers, hn, hv]⟩
    · exact ⟨"invalid HTTP header name", by simp [map_to_headers, hn]⟩

/- Substring containment of an explicitly spliced occurrence. -/

theorem isPrefixOf_append_self (l t : List Char) : l.isPrefixOf (l ++ t) = true := by
  induction l with
  | nil => cases t <;> rfl
  | cons c cs ih => simp [List.isPrefixOf, ih]

theorem containsSubL_append (pat a b : List Char) :
    containsSubL pat (a ++ (pat ++ b)) = true := by
  induction a with
  | nil =>
    cases pat with
    | nil => cases b <;> simp [containsSubL, List.isPrefixOf]
    | cons p ps => simp [containsSubL, isPrefixOf_append_self]
  | cons c a' ih => simp [containsSubL, ih]

theorem strContains_append_middle (x e y : String) :
    strContains (x ++ e ++ y) e = true := by
  have h : (x ++ e ++ y).data = x.data ++ (e.data ++ y.data) := by
    simp [String.data_append]
  rw [strContains, h]
  have := containsSubL_append e.data x.data y.data
  simpa [String.data_append] using this

/- Equivalence of replace-all with split-and-rejoin: Rust str::replace of a
   pattern really is the insertion of the replacement at every
   non-overlapping, leftmost occurrence. -/

theorem splitOnFuel_ne_nil (pat : List Char) :
    ∀ (fuel : Nat) (s : List Char), splitOnFuel pat fuel s ≠ [] := by
  intro fuel
  induction fuel with
  | zero => intro s; cases s <;> simp [splitOnFuel]
  | succ f ih =>
    intro s
    cases s with
    | nil => simp [splitOnFuel]
    | cons c cs =>
      rw [splitOnFuel]
      split
      · simp
      · cases h : splitOnFuel pat f cs with
        | nil => simp
        | cons seg rest => simp

theorem interL_cons_cons (sep c : List Char) (seg : List Char)
    (rest : List (List Char)) :
    interL sep ((c ++ seg) :: rest) = c ++ interL sep (seg :: rest) := by
  cases rest <;> simp [interL]

theorem interL_nil_cons (sep : List Char) (l : List (List Char)) (h : l ≠ []) :
    interL sep ([] :: l) = sep ++ interL sep l := by
  cases l with
  | nil => exact absurd rfl h
  | cons seg rest => simp [interL]

theorem interL_splitOnFuel (pat rep : List Char) :
    ∀ (fuel : Nat) (s : List Char),
      interL rep (splitOnFuel pat fuel s) = replaceAllFuel pat rep fuel s := by
  intro fuel
  induction fuel with
  | zero => intro s; cases s <;> simp [splitOnFuel, replaceAllFuel, interL]
  | succ f ih =>
    intro s
    cases s with
    | nil => simp [splitOnFuel, replaceAllFuel, interL]
    | cons c cs =>
      rw [splitOnFuel, replaceAllFuel]
      split
      · rw [interL_nil_cons rep _ (splitOnFuel_ne_nil pat f _), ih]
      · cases h : splitOnFuel pat f cs with
        | nil => exact absurd h (splitOnFuel_ne_nil pat f cs)
        | cons seg rest =>
          have h2 : interL rep ((c :: seg) :: rest) = c :: interL rep (seg :: rest) := by
            have := interL_cons_cons rep [c] seg rest
            simpa using this
          rw [h2, ← h, ih]

/- strReplace with replacement text ending in the pattern itself is exactly
   the insertion of the leading text before every occurrence of the
   pattern. -/
theorem strReplace_eq_insertBeforeEach (s pat ins : String) :
    strReplace s pat (ins ++ pat) = insertBeforeEach s pat ins := by
  rw [strReplace, insertBeforeEach, String.data_append, ← interL_splitOnFuel]

/- A response-direction rule step either leaves the state untouched or
   reports a modification; once reported, a modification is never
   retracted by later rules. -/

theorem applyResponseStep_cases (acc : List (String × String) × String × InjectionResult)
    (s : InjectionScript) :
    applyResponseStep acc s = acc ∨ (applyResponseStep acc s).2.2.modified = true := by
  obtain ⟨h, b, r⟩ := acc
  cases hty : s.inject_type
  case Header => left; simp [applyResponseStep, hty]
  case Body => left; simp [applyResponseStep, hty]
  case ResponseHeader =>
    by_cases hh : s.headers.isEmpty
    · left
      have : s.headers = [] := List.isEmpty_iff.mp hh
      simp [applyResponseStep, hty, this, foldHeadersInto]
    · right; simp [applyResponseStep, hty, hh]
  case ResponseBody =>
    by_cases hp : s.script_content = ""
    · left; simp [applyResponseStep, hty, hp]
    · right
      by_cases hb : strContains b "</body>" <;> simp [applyResponseStep, hty, hp, hb]
  case JavaScript =>
    by_cases hb : strContains b "</head>"
    · right; simp [applyResponseStep, hty, hb]
    · left; simp [applyResponseStep, hty, hb]
  case CSS =>
    by_cases hb : strContains b "</head>"
    · right; simp [applyResponseStep, hty, hb]
    · left; simp [applyResponseStep, hty, hb]

theorem applyResponseStep_mono (acc : List (String × String) × String × InjectionResult)
    (s : InjectionScript) (h : acc.2.2.modified = true) :
    (applyResponseStep acc s).2.2.modified = true := by
  obtain ⟨hd, b, r⟩ := acc
  simp only at h
  cases hty : s.inject_type
  case Header => simpa [applyResponseStep, hty] using h
  case Body => simpa [applyResponseStep, hty] using h
  case ResponseHeader => simp [applyResponseStep, hty, h]
  case ResponseBody =>
    by_cases hp : s.script_content = ""
    · simpa [applyResponseStep, hty, hp] using h
    · by_cases hb : strContains b "</body>" <;> simp [applyResponseStep, hty, hp, hb]
  case JavaScript =>
    by_cases hb : strContains b "</head>" <;> simp [applyResponseStep, hty, hb, h]
  case CSS =>
    by_cases hb : strContains b "</head>" <;> simp [applyResponseStep, hty, hb, h]

theorem foldl_applyResponseStep_mono (l : List InjectionScript)
    (acc : List (String × String) × String × InjectionResult)
    (h : acc.2.2.modified = true) :
    (l.foldl applyResponseStep acc).2.2.modified = true := by
  induction l generalizing acc with
  | nil => simpa using h
  | cons s l' ih => exact ih _ (applyResponseStep_mono acc s h)

/- A response pass that reports no modification leaves headers and body at
   their initial values. -/
theorem foldl_applyResponseStep_unmodified (l : List InjectionScript)
    (acc : List (String × String) × String × InjectionResult)
    (h : (l.foldl applyResponseStep acc).2.2.modified = false) :
    l.foldl applyResponseStep acc = acc := by
  induction l generalizing acc with
  | nil => rfl
  | cons s l' ih =>
    rcases applyResponseStep_cases acc s with he | hm
    · rw [List.foldl_cons, he] at h ⊢
      exact ih acc h
    · have := foldl_applyResponseStep_mono l' (applyResponseStep acc s) hm
      rw [List.foldl_cons] at h
      rw [h] at this
      simp at this

/- UTF-8 round trip: the fuel argument of the decoder loop is irrelevant
   as long as it is at least the byte count. -/

theorem utf8DecodeFuel_nil (f : Nat) : utf8DecodeFuel f [] = [] := by
  cases f <;> rfl

/- Decoding an encoded valid scalar-value sequence recovers it exactly,
   for any surplus of decoder fuel (the surplus formulation makes the
   induction go through without a fuel-irrelevance argument). -/
theorem utf8_roundtrip_fuel :
    ∀ (cps : List Nat), (∀ c ∈ cps, ValidCp c) → ∀ (extra : Nat),
      utf8DecodeFuel ((utf8Encode cps).length + extra) (utf8Encode cps) = cps := by
  intro cps
  induction cps with
  | nil => intro _ extra; rw [show utf8Encode [] = [] from rfl, utf8DecodeFuel_nil]
  | cons c cs ih =>
    intro hv extra
    have hc : ValidCp c := hv c (by simp)
    have hcs : ∀ x ∈ cs, ValidCp x := fun x hx => hv x (by simp [hx])
    have hsplit : utf8Encode (c :: cs) = utf8EncodeCp c ++ utf8Encode cs := rfl
    rw [hsplit]
    by_cases h1 : c < 0x80
    · have henc : utf8EncodeCp c = [c] := by rw [utf8EncodeCp, if_pos h1]
      rw [henc]
      have hlen : (([c] ++ utf8Encode cs).length + extra)
          = ((utf8Encode cs).length + extra) + 1 := by
        simp [List.length_append]; omega
      rw [hlen, List.singleton_append]
      simp only [utf8DecodeFuel]
      rw [if_pos h1]
      exact congrArg _ (ih hcs extra)
    · by_cases h2 : c < 0x800
      · have henc : utf8EncodeCp c = [0xC0 + c / 0x40, 0x80 + c % 0x40] := by
          rw [utf8EncodeCp, if_neg h1, if_pos h2]
        rw [henc]
        have hlen : (([0xC0 + c / 0x40, 0x80 + c % 0x40] ++ utf8Encode cs).length + extra)
            = ((utf8Encode cs).length + (extra + 1)) + 1 := by
          simp [List.length_append]; omega
        rw [hlen, List.cons_append, List.singleton_append]
        simp only [utf8DecodeFuel]
        rw [if_neg (by omega), if_pos (by omega),
          if_pos (show isCont (0x80 + c % 0x40) from ⟨by omega, by omega⟩)]
        rw [show (0xC0 + c / 0x40 - 0xC0) * 0x40 + (0x80 + c % 0x40 - 0x80) = c
          from by omega]
        exact congrArg _ (ih hcs (extra + 1))
      · by_cases h3 : c < 0x10000
        · have henc : utf8EncodeCp c =
              [0xE0 + c / 0x1000, 0x80 + c / 0x40 % 0x40, 0x80 + c % 0x40] := by
            rw [utf8EncodeCp, if_neg h1, if_neg h2, if_pos h3]
          rw [henc]
          have hlen :
              (([0xE0 + c / 0x1000, 0x80 + c / 0x40 % 0x40, 0x80 + c % 0x40] ++
                 utf8Encode cs).length + extra)
              = ((utf8Encode cs).length + (extra + 2)) + 1 := by
            simp [List.length_append]; omega
          rw [hlen, List.cons_append, List.cons_append, List.singleton_append]
          simp only [utf8DecodeFuel]
          rw [if_neg (by omega), if_neg (by omega), if_pos (by omega)]
          have hcond :
              (if (0xE0 + c / 0x1000 : Nat) = 0xE0 then
                0xA0 ≤ 0x80 + c / 0x40 % 0x40 ∧ 0x80 + c / 0x40 % 0x40 ≤ 0xBF
              else if (0xE0 + c / 0x1000 : Nat) = 0xED then
                0x80 ≤ 0x80 + c / 0x40 % 0x40 ∧ 0x80 + c / 0x40 % 0x40 ≤ 0x9F
              else isCont (0x80 + c / 0x40 % 0x40)) := by
            split_ifs with ha hb
            · omega
            · rcases hc with hlo | hhi <;> omega
            · exact ⟨by omega, by omega⟩
          rw [if_pos hcond]
          rw [if_pos (show isCont (0x80 + c % 0x40) from ⟨by omega, by omega⟩)]
          rw [show (0xE0 + c / 0x1000 - 0xE0) * 0x1000 +
            (0x80 + c / 0x40 % 0x40 - 0x80) * 0x40 + (0x80 + c % 0x40 - 0x80) = c
            from by omega]
          exact congrArg _ (ih hcs (extra + 2))
        · have hhi : c < 0x110000 := by
            rcases hc with hlo | hhi
            · omega
            · exact hhi.2
          have henc : utf8EncodeCp c =
              [0xF0 + c / 0x40000, 0x80 + c / 0x1000 % 0x40, 0x80 + c / 0x40 % 0x40,
               0x80 + c % 0x40] := by
            rw [utf8EncodeCp, if_neg h1, if_neg h2, if_neg h3]
          rw [henc]
          have hlen :
              (([0xF0 + c / 0x40000, 0x80 + c / 0x1000 % 0x40, 0x80 + c / 0x40 % 0x40,
                 0x80 + c % 0x40] ++ utf8Encode cs).length + extra)
              = ((utf8Encode cs).length + (extra + 3)) + 1 := by
            simp [List.length_append]; omega
          rw [hlen, List.cons_append, List.cons_append, List.cons_append,
            List.singleton_append]
          simp only [utf8DecodeFuel]
          rw [if_neg (by omega), if_neg (by omega), if_neg (by omega), if_pos (by omega)]
          have hcond :
              (if (0xF0 + c / 0x40000 : Nat) = 0xF0 then
                0x90 ≤ 0x80 + c / 0x1000 % 0x40 ∧ 0x80 + c / 0x1000 % 0x40 ≤ 0xBF
              else if (0xF0 + c / 0x40000 : Nat) = 0xF4 then
                0x80 ≤ 0x80 + c / 0x1000 % 0x40 ∧ 0x80 + c / 0x1000 % 0x40 ≤ 0x8F
              else isCont (0x80 + c / 0x1000 % 0x40)) := by
            split_ifs with ha hb
            · omega
            · omega
            · exact ⟨by omega, by omega⟩
          rw [if_pos hcond]
          rw [if_pos (show isCont (0x80 + c / 0x40 % 0x40) from ⟨by omega, by omega⟩)]
          rw [if_pos (show isCont (0x80 + c % 0x40) from ⟨by omega, by omega⟩)]
          rw [show (0xF0 + c / 0x40000 - 0xF0) * 0x40000 +
            (0x80 + c / 0x1000 % 0x40 - 0x80) * 0x1000 +
            (0x80 + c / 0x40 % 0x40 - 0x80) * 0x40 + (0x80 + c % 0x40 - 0x80) = c
            from by omega]
          exact congrArg _ (ih hcs (extra + 3))

/- String::from_utf8_lossy of the UTF-8 encoding of a valid scalar-value
   sequence is that sequence: a valid-UTF-8 body decodes losslessly. -/
theorem utf8_roundtrip (cps : List Nat) (h : ∀ c ∈ cps, ValidCp c) :
    utf8DecodeLossy (utf8Encode cps) = cps := by
  have := utf8_roundtrip_fuel cps h 0
  simpa [utf8DecodeLossy] using this

/- If no enabled matching rule is a Body rule with non-empty payload, the
   request-direction pass leaves the body code points unchanged. -/
theorem requestBodyCps_id (rm : String → String → Bool) (cfg : Config)
    (scripts : List InjectionScript) (host : String) (s0 : List Nat)
    (h : ∀ s ∈ get_scripts_for_domain rm scripts host,
      s.inject_type = InjectType.Body → s.script_content = "") :
    requestBodyCps rm cfg scripts host s0 = s0 := by
  rw [requestBodyCps]
  split
  · generalize hl : get_scripts_for_domain rm scripts host = l
    rw [hl] at h
    clear hl
    induction l generalizing s0 with
    | nil => rfl
    | cons s l' ih =>
      have hs : s.inject_type = InjectType.Body → s.script_content = "" := h s (by simp)
      have hstep :
          (match s.inject_type with
            | InjectType.Body =>
              if s.script_content ≠ "" then s0 ++ strCodepoints s.script_content else s0
            | _ => s0) = s0 := by
        cases hty : s.inject_type
        case Body => simp [hs hty]
        all_goals rfl
      rw [List.foldl_cons, hstep]
      exact ih s0 (fun x hx hty => h x (List.mem_cons_of_mem _ hx) hty)
  · rfl

/- Claim theorems. -/

/-- C2, counterexample: the claim asserts
    domainMatches("evilexample.com", ["*.example.com"]) = false, but the
    source tests domain.ends_with(suffix) with suffix "example.com" and no
    dot-boundary check, so "evilexample.com" matches.  The regex branch is
    never consulted (and Regex::new("*.example.com") would fail to compile
    anyway, which regexNone models). -/
theorem C2_counterexample :
    domain_matches regexNone "evilexample.com" ["*.example.com"] = true := by decide

/-- C2 (amended): for a pattern `*.suffix`, domain_matches holds whenever
    the domain ends in the character string `suffix` — a plain suffix
    match, not restricted to the dot boundary; in particular
    "a.example.com", "example.com" and also "evilexample.com" all match
    ["*.example.com"], while "example.org" does not. -/
theorem C2_wildcard_suffix :
    (∀ (rm : String → String → Bool) (d suf : String),
      strEndsWith d suf = true → domain_matches rm d ["*." ++ suf] = true)
    ∧ (∀ rm, domain_matches rm "a.example.com" ["*.example.com"] = true)
    ∧ (∀ rm, domain_matches rm "example.com" ["*.example.com"] = true)
    ∧ (∀ rm, domain_matches rm "evilexample.com" ["*.example.com"] = true)
    ∧ domain_matches regexNone "example.org" ["*.example.com"] = false := by
  refine ⟨?_, ?_, ?_, ?_, by decide⟩
  · intro rm d suf hend
    by_cases h1 : ("*." ++ suf : String) = "*" ∨ ("*." ++ suf : String) = d
    · simp only [domain_matches]
      rw [if_pos h1]
    · have hsw : strStartsWith ("*." ++ suf) "*." = true := by
        rw [strStartsWith, String.data_append]
        exact isPrefixOf_append_self _ _
      have hdr : strDropChars ("*." ++ suf) 2 = suf := by
        rw [strDropChars, String.data_append]
        rfl
      simp only [domain_matches]
      rw [if_neg h1, if_pos (by rw [hsw, hdr, hend]; rfl)]
  · intro rm
    simp only [domain_matches]
    rw [if_neg (by decide), if_pos (by decide)]
  · intro rm
    simp only [domain_matches]
    rw [if_neg (by decide), if_pos (by decide)]
  · intro rm
    simp only [domain_matches]
    rw [if_neg (by decide), if_pos (by decide)]

/-- C2, witness for the amended theorem at a concrete input. -/
theorem C2_witness :
    domain_matches regexNone "api.test.org" ["*." ++ "test.org"] = true :=
  C2_wildcard_suffix.1 regexNone "api.test.org" "test.org" (by decide)

/-- C8: block-lists win over allow-lists for both the domain and the IP
    check; an empty IP allow-list fails open, and a non-empty one admits
    exactly the IPs literally present in it (net of the block-list). -/
theorem C8_policy_precedence (cfg : Config) (domain ip : String) :
    (domain ∈ cfg.scripts.blocked_domains → is_domain_allowed cfg domain = false)
    ∧ (ip ∈ cfg.security.blacklist_ips → is_ip_allowed cfg ip = false)
    ∧ (cfg.security.whitelist_ips = [] → ip ∉ cfg.security.blacklist_ips →
        is_ip_allowed cfg ip = true)
    ∧ (cfg.security.whitelist_ips ≠ [] →
        (is_ip_allowed cfg ip = true ↔
          ip ∉ cfg.security.blacklist_ips ∧ ip ∈ cfg.security.whitelist_ips)) := by
  refine ⟨?_, ?_, ?_, ?_⟩
  · intro h
    rw [is_domain_allowed, if_pos (by simpa using h)]
  · intro h
    have hne : ¬cfg.security.blacklist_ips.isEmpty := by
      cases hl : cfg.security.blacklist_ips with
      | nil => rw [hl] at h; simp at h
      | cons a l => simp [List.isEmpty]
    rw [is_ip_allowed,
      if_pos (by simp [hne, h])]
  · intro hw hb
    rw [is_ip_allowed,
      if_neg (by simp [hb]),
      if_pos (by simp [hw])]
  · intro hw
    constructor
    · intro hall
      by_cases hb : ip ∈ cfg.security.blacklist_ips
      · have hne : ¬cfg.security.blacklist_ips.isEmpty := by
          cases hl : cfg.security.blacklist_ips with
          | nil => rw [hl] at hb; simp at hb
          | cons a l => simp [List.isEmpty]
        rw [is_ip_allowed,
          if_pos (by simp [hne, hb])] at hall
        simp at hall
      · refine ⟨hb, ?_⟩
        rw [is_ip_allowed, if_neg (by simp [hb]),
          if_neg (by simp [List.isEmpty_iff, hw])] at hall
        simpa using hall
    · rintro ⟨hb, hm⟩
      rw [is_ip_allowed, if_neg (by simp [hb]),
        if_neg (by simp [List.isEmpty_iff, hw])]
      simpa using hm

/-- C8, witness at a concrete policy. -/
theorem C8_witness :
    is_domain_allowed
      ⟨⟨"127.0.0.1", 8080, 30, 1000, 8192⟩,
       ⟨"scripts", true, 5000, ["*"], ["bad.com"]⟩,
       ⟨"info", none, "10MB", 5⟩,
       ⟨false, none, 100, ["1.1.1.1"], ["9.9.9.9"]⟩⟩ "bad.com" = false
    ∧ is_ip_allowed
      ⟨⟨"127.0.0.1", 8080, 30, 1000, 8192⟩,
       ⟨"scripts", true, 5000, ["*"], ["bad.com"]⟩,
       ⟨"info", none, "10MB", 5⟩,
       ⟨false, none, 100, ["1.1.1.1"], ["9.9.9.9"]⟩⟩ "9.9.9.9" = false :=
  ⟨(C8_policy_precedence _ "bad.com" "9.9.9.9").1 (by decide),
   (C8_policy_precedence _ "bad.com" "9.9.9.9").2.1 (by decide)⟩

/-- C5: an enabled matching ResponseBody rule with non-empty payload
    inserts the payload immediately before every occurrence of the literal
    anchor body-close tag when the body contains it, appends the payload
    otherwise, and sets the modified flag either way (per-rule step of the
    response pass, script_manager.rs lines 191-201). -/
theorem C5_response_body_splice (rm : String → String → Bool) (d : String)
    (s : InjectionScript)
    (h : List (String × String)) (b : String) (r : InjectionResult)
    (hty : s.inject_type = InjectType.ResponseBody)
    (hp : s.script_content ≠ "") :
    (s.enabled = true → domain_matches rm d s.target_domains = true →
      apply_response_injections rm [s] d h b =
        applyResponseStep (h, b, emptyInjectionResult) s)
    ∧ (strContains b "</body>" = true →
      applyResponseStep (h, b, r) s =
        (h, insertBeforeEach b "</body>" s.script_content,
         { r with modified := true }))
    ∧ (strContains b "</body>" = false →
      applyResponseStep (h, b, r) s =
        (h, b ++ s.script_content, { r with modified := true })) := by
  refine ⟨?_, ?_, ?_⟩
  · intro hen hmatch
    simp [apply_response_injections, get_scripts_for_domain, List.filter, hen, hmatch]
  · intro hb
    simp only [applyResponseStep, hty, hp, hb,
      ne_eq, not_false_eq_true, if_true, ite_true]
    rw [strReplace_eq_insertBeforeEach]
  · intro hb
    simp [applyResponseStep, hty, hp, hb]

/-- C5, witness: the spec's example body gains the payload right before
    its closing body tag. -/
theorem C5_witness :
    applyResponseStep ([], "<html><body>x</body></html>", emptyInjectionResult)
      c5Script =
      ([], "<html><body>xY</body></html>", ⟨true, none, none, none, none⟩) := by
  have h := (C5_response_body_splice regexNone "example.com" c5Script []
    "<html><body>x</body></html>"
    emptyInjectionResult rfl (by decide)).2.1 (by decide)
  rw [h]
  decide

/-- C6: an enabled matching JavaScriptInjection (resp. CssInjection) rule
    in the response direction inserts the payload wrapped in a script
    (resp. style) delimiter before every occurrence of the literal
    head-close anchor and sets the modified flag; with no anchor the step
    leaves headers, body and flag untouched (script_manager.rs lines
    202-215). -/
theorem C6_head_anchor (rm : String → String → Bool) (d : String)
    (s : InjectionScript)
    (h : List (String × String)) (b : String) (r : InjectionResult) :
    (s.enabled = true → domain_matches rm d s.target_domains = true →
      apply_response_injections rm [s] d h b =
        applyResponseStep (h, b, emptyInjectionResult) s)
    ∧ (s.inject_type = InjectType.JavaScript →
      (strContains b "</head>" = true →
        applyResponseStep (h, b, r) s =
          (h, insertBeforeEach b "</head>"
                ("<script>" ++ s.script_content ++ "</script>"),
           { r with modified := true }))
      ∧ (strContains b "</head>" = false →
        applyResponseStep (h, b, r) s = (h, b, r)))
    ∧ (s.inject_type = InjectType.CSS →
      (strContains b "</head>" = true →
        applyResponseStep (h, b, r) s =
          (h, insertBeforeEach b "</head>"
                ("<style>" ++ s.script_content ++ "</style>"),
           { r with modified := true }))
      ∧ (strContains b "</head>" = false →
        applyResponseStep (h, b, r) s = (h, b, r))) := by
  refine ⟨?_, ?_, ?_⟩
  · intro hen hmatch
    simp [apply_response_injections, get_scripts_for_domain, List.filter, hen, hmatch]
  all_goals intro hty
  all_goals constructor <;> intro hb
  · simp only [applyResponseStep, hty, hb, if_true, ite_true]
    rw [strReplace_eq_insertBeforeEach]
  · simp [applyResponseStep, hty, hb]
  · simp only [applyResponseStep, hty, hb, if_true, ite_true]
    rw [strReplace_eq_insertBeforeEach]
  · simp [applyResponseStep, hty, hb]

/-- C6, witness: a concrete JavaScript rule is spliced before the head
    anchor wrapped in script delimiters. -/
theorem C6_witness :
    applyResponseStep ([], "<html><head></head></html>", emptyInjectionResult)
      c6Script =
      ([], "<html><head><script>alert(1)</script></head></html>",
       ⟨true, none, none, none, none⟩) := by
  have h := (C6_head_anchor regexNone "example.com" c6Script []
    "<html><head></head></html>"
    emptyInjectionResult).2.1 rfl |>.1 (by decide)
  rw [h]
  decide

/-- C7, counterexample: an enabled matching JavaScriptInjection rule with
    an empty payload is not a no-op — with the head anchor present the
    response pass splices an empty script wrapper into the body and sets
    the modified flag (script_manager.rs lines 202-207 have no emptiness
    guard). -/
theorem C7_counterexample :
    apply_response_injections regexNone [c7Script] "example.com" [] "<head></head>" =
      ([], "<head><script></script></head>", ⟨true, none, none, none, none⟩)
    ∧ ("<head><script></script></head>" : String) ≠ "<head></head>" := by
  decide

/-- C7 (amended): an empty payload is a guaranteed no-op only for the Body
    and ResponseBody inject types (whose branches test for emptiness);
    Header and ResponseHeader rules act on their header map regardless of
    the payload, and JavaScript and CSS rules fire even with an empty
    payload. -/
theorem C7_empty_payload (s : InjectionScript)
    (h : List (String × String)) (b : String) (r : InjectionResult)
    (hp : s.script_content = "") :
    (s.inject_type = InjectType.Body → applyRequestStep (h, b, r) s = (h, b, r))
    ∧ (s.inject_type = InjectType.ResponseBody →
        applyResponseStep (h, b, r) s = (h, b, r)) := by
  constructor <;> intro hty
  · simp [applyRequestStep, hty, hp]
  · simp [applyResponseStep, hty, hp]

/-- C7, witness for the amended theorem. -/
theorem C7_witness :
    applyRequestStep ([], "payload-free", emptyInjectionResult) c7BodyScript =
      ([], "payload-free", emptyInjectionResult) :=
  (C7_empty_payload c7BodyScript [] "payload-free" emptyInjectionResult rfl).1 rfl

/-- C3, counterexample: the registry backing store is an unordered
    HashMap, so the engine sees scripts in an arbitrary iteration order;
    the two orders of the same two-rule set (a permutation, i.e. the same
    registry contents) produce different header outcomes for an
    overlapping key, refuting the claimed deterministic, stable
    application order. -/
theorem C3_counterexample :
    List.Perm [c3A, c3B] [c3B, c3A]
    ∧ apply_request_injections regexNone [c3A, c3B] "example.com" [] "" ≠
        apply_request_injections regexNone [c3B, c3A] "example.com" [] "" :=
  ⟨List.Perm.swap c3B c3A [], by decide⟩

/-- C3 (amended): rule application order is the HashMap iteration order,
    which is not determined by the registry contents; relative to a given
    iteration order [A, B], the later rule B wins the overlapping header
    key. -/
theorem C3_last_writer_wins (rm : String → String → Bool) (d : String)
    (hm : List (String × String)) (b : String) (A B : InjectionScript)
    (k vA vB : String)
    (hAe : A.enabled = true) (hBe : B.enabled = true)
    (hAt : A.inject_type = InjectType.Header)
    (hBt : B.inject_type = InjectType.Header)
    (hAh : A.headers = [(k, vA)]) (hBh : B.headers = [(k, vB)])
    (hAm : domain_matches rm d A.target_domains = true)
    (hBm : domain_matches rm d B.target_domains = true) :
    mapLookup (apply_request_injections rm [A, B] d hm b).1 k = some vB := by
  simp [apply_request_injections, get_scripts_for_domain, List.filter,
    hAe, hBe, hAm, hBm, applyRequestStep, hAt, hBt, hAh, hBh,
    foldHeadersInto, mapLookup_mapInsert_self]

/-- C3, witness for the amended theorem. -/
theorem C3_witness :
    mapLookup (apply_request_injections regexNone [c3A, c3B] "example.com" [] "").1
      "x-k" = some "2" :=
  C3_last_writer_wins regexNone "example.com" [] "" c3A c3B "x-k" "1" "2"
    rfl rfl rfl rfl rfl rfl (by decide) (by decide)

/-- C4, counterexample: a header-only rule sets the pass's modified flag,
    so process_response rewrites content-length (999 becomes 3) even
    though the body "abc" did not change — content-length is not left
    untouched whenever the body is unchanged, contrary to the claim. -/
theorem C4_counterexample :
    process_response regexNone headerAlwaysValid headerAlwaysValid c4Config
        [c4HeaderScript] "example.com" ⟨200, [("content-length", "999")], "abc"⟩ =
      .ok ⟨200, [("content-length", "3"), ("x-debug", "1")], "abc"⟩
    ∧ mapLookup [("content-length", "3"), ("x-debug", "1")] "content-length" ≠
        mapLookup (headersToMap [("content-length", "999")]) "content-length" := by
  decide

/-- C4 (amended): in an allowed-domain response pass, whenever any rule
    reported a modification (body-changing or header-only alike) the
    emitted content-length equals the byte length of the final body; the
    content-length value is carried over from the original message only
    when no rule modified anything (or scripts are disabled), not merely
    when the body is unchanged. -/
theorem C4_content_length (rm : String → String → Bool) (vN vV : String → Bool)
    (cfg : Config) (scripts : List InjectionScript) (domain : String)
    (res : RespModel) (hdom : is_domain_allowed cfg domain = true) :
    (∀ out, cfg.scripts.enabled = true →
      (responseInjected rm cfg scripts domain res).2.2.modified = true →
      process_response rm vN vV cfg scripts domain res = .ok out →
      mapLookup out.headers "content-length" = some (toString (strUtf8Len out.body))
      ∧ out.body = (responseInjected rm cfg scripts domain res).2.1)
    ∧ (∀ out, cfg.scripts.enabled = true →
      (responseInjected rm cfg scripts domain res).2.2.modified = false →
      process_response rm vN vV cfg scripts domain res = .ok out →
      out.headers = headersToMap res.headers ∧ out.body = res.body)
    ∧ (∀ out, cfg.scripts.enabled = false →
      process_response rm vN vV cfg scripts domain res = .ok out →
      out.headers = headersToMap res.headers ∧ out.body = res.body) := by
  refine ⟨?_, ?_, ?_⟩
  · intro out hen hmod hok
    rw [process_response, if_neg (by simp [hdom])] at hok
    have hho : responseHeadersOut rm cfg scripts domain res =
        mapInsert (responseInjected rm cfg scripts domain res).1 "content-length"
          (toString (strUtf8Len (responseInjected rm cfg scripts domain res).2.1)) := by
      rw [responseHeadersOut, if_pos (by simp [hen, hmod])]
    cases hmap : map_to_headers vN vV (responseHeadersOut rm cfg scripts domain res) with
    | error e => rw [hmap] at hok; simp at hok
    | ok hs =>
      rw [hmap] at hok
      simp only [Except.ok.injEq] at hok
      have hhs : hs = responseHeadersOut rm cfg scripts domain res :=
        map_to_headers_ok_eq vN vV _ hs hmap
      rw [← hok]
      refine ⟨?_, rfl⟩
      rw [hhs, hho]
      exact mapLookup_mapInsert_self _ _ _
  · intro out hen hmod hok
    rw [process_response, if_neg (by simp [hdom])] at hok
    have hstep : responseInjected rm cfg scripts domain res =
        (headersToMap res.headers, res.body, emptyInjectionResult) := by
      rw [responseInjected, if_pos hen] at hmod ⊢
      exact foldl_applyResponseStep_unmodified _ _ hmod
    have hho : responseHeadersOut rm cfg scripts domain res = headersToMap res.headers := by
      rw [responseHeadersOut, if_neg (by simp [hmod]), hstep]
    cases hmap : map_to_headers vN vV (responseHeadersOut rm cfg scripts domain res) with
    | error e => rw [hmap] at hok; simp at hok
    | ok hs =>
      rw [hmap] at hok
      simp only [Except.ok.injEq] at hok
      have hhs : hs = responseHeadersOut rm cfg scripts domain res :=
        map_to_headers_ok_eq vN vV _ hs hmap
      rw [← hok]
      exact ⟨by rw [hhs, hho], by rw [hstep]⟩
  · intro out hen hok
    rw [process_response, if_neg (by simp [hdom])] at hok
    have hstep : responseInjected rm cfg scripts domain res =
        (headersToMap res.headers, res.body, emptyInjectionResult) := by
      rw [responseInjected, if_neg (by simp [hen])]
    have hho : responseHeadersOut rm cfg scripts domain res = headersToMap res.headers := by
      rw [responseHeadersOut, if_neg (by simp [hen]), hstep]
    cases hmap : map_to_headers vN vV (responseHeadersOut rm cfg scripts domain res) with
    | error e => rw [hmap] at hok; simp at hok
    | ok hs =>
      rw [hmap] at hok
      simp only [Except.ok.injEq] at hok
      have hhs : hs = responseHeadersOut rm cfg scripts domain res :=
        map_to_headers_ok_eq vN vV _ hs hmap
      rw [← hok]
      exact ⟨by rw [hhs, hho], by rw [hstep]⟩

/-- C4, witness: a modified multi-byte body gets content-length 16, the
    byte length (not the character count) of the final body. -/
theorem C4_witness :
    mapLookup ((⟨200, [("content-length", "16")], "<body>éY</body>"⟩ : RespModel).headers)
        "content-length" =
      some (toString (strUtf8Len
        ((⟨200, [("content-length", "16")], "<body>éY</body>"⟩ : RespModel).body)))
    ∧ toString (strUtf8Len ("<body>éY</body>" : String)) = "16" :=
  ⟨((C4_content_length regexNone headerAlwaysValid headerAlwaysValid c4Config
      [c4BodyScript] "example.com" ⟨200, [("content-length", "7")], "<body>é</body>"⟩
      (by decide)).1
      ⟨200, [("content-length", "16")], "<body>éY</body>"⟩ rfl (by decide) (by decide)).1,
   by decide⟩

/-- C1, counterexample: a request to the block-listed domain "bad.com" is
    still forwarded upstream (forwarded = true) and the client receives
    the upstream 200, not a 403 blocked page — process_request's domain
    check (http_injector.rs lines 27-30) returns the request unchanged
    instead of blocking. -/
theorem C1_counterexample :
    (handle_request regexNone headerAlwaysValid headerAlwaysValid c1Config []
      c1Upstream true ⟨Method.GET, "bad.com", [], ""⟩).forwarded = true
    ∧ (handle_request regexNone headerAlwaysValid headerAlwaysValid c1Config []
      c1Upstream true ⟨Method.GET, "bad.com", [], ""⟩).resp.status = 200 := by
  decide

/-- C1 (amended): a request whose target domain the policy denies is
    neither answered with a 403 page nor withheld from upstream: the
    domain check only disables injection, so the request is forwarded
    exactly as received and the upstream response is relayed untouched
    (only a denied client IP produces the 403 blocked page). -/
theorem C1_denied_domain_still_forwarded (rm : String → String → Bool)
    (vN vV : String → Bool) (cfg : Config) (scripts : List InjectionScript)
    (upstream : ReqM → Except String RespModel) (tunnelOk : Bool) (req : ReqM)
    (hdom : is_domain_allowed cfg req.host = false)
    (hip : is_ip_allowed cfg "127.0.0.1" = true)
    (hconn : req.method ≠ Method.CONNECT) :
    (handle_request rm vN vV cfg scripts upstream tunnelOk req).forwarded = true
    ∧ (∀ res, upstream req = .ok res →
        handle_request rm vN vV cfg scripts upstream tunnelOk req = ⟨res, true⟩)
    ∧ (∀ e, upstream req = .error e →
        handle_request rm vN vV cfg scripts upstream tunnelOk req =
          ⟨create_error_response e, true⟩) := by
  have hpr : process_request rm vN vV cfg scripts req = .ok req := by
    rw [process_request, if_pos (by simp [hdom])]
  have hps : ∀ res, process_response rm vN vV cfg scripts req.host res = .ok res := by
    intro res
    rw [process_response, if_pos (by simp [hdom])]
  have hmain : handle_request rm vN vV cfg scripts upstream tunnelOk req =
      (match upstream req with
        | .error e => ⟨create_error_response e, true⟩
        | .ok res => ⟨res, true⟩) := by
    simp [handle_request, hip, hpr, hconn, hps]
  refine ⟨?_, ?_, ?_⟩
  · rw [hmain]
    cases hcase : upstream req <;> rfl
  · intro res hres
    rw [hmain, hres]
  · intro e he
    rw [hmain, he]

/-- C1, witness for the amended theorem at a concrete blocked domain. -/
theorem C1_witness :
    handle_request regexNone headerAlwaysValid headerAlwaysValid c1Config []
      c1Upstream true ⟨Method.GET, "bad.com", [], ""⟩ =
      ⟨⟨200, [("content-length", "2")], "ok"⟩, true⟩ :=
  (C1_denied_domain_still_forwarded regexNone headerAlwaysValid headerAlwaysValid
    c1Config [] c1Upstream true ⟨Method.GET, "bad.com", [], ""⟩
    (by decide) (by decide) (by decide)).2.1 _ rfl

/-- C9: if after mutation some header name or value in the rebuilt map is
    not protocol-valid, re-encoding fails (request direction:
    http_injector.rs line 58, response direction: line 100) and the
    handler turns that failure into a 500 error page whose body contains
    the cause string (proxy.rs lines 90-96 and 116-122); the request, or
    response, is not forwarded with the header dropped. -/
theorem C9_invalid_header_visible_500 (rm : String → String → Bool)
    (vN vV : String → Bool) (cfg : Config) (scripts : List InjectionScript)
    (upstream : ReqM → Except String RespModel) (tunnelOk : Bool) (req : ReqM) :
    (∀ n v, is_ip_allowed cfg "127.0.0.1" = true →
      is_domain_allowed cfg req.host = true →
      (n, v) ∈ (requestInjected rm cfg scripts req).1 →
      (vN n = false ∨ vV v = false) →
      ∃ e, process_request rm vN vV cfg scripts req = .error e
        ∧ handle_request rm vN vV cfg scripts upstream tunnelOk req =
            ⟨create_error_response e, false⟩
        ∧ (create_error_response e).status = 500
        ∧ strContains (create_error_response e).body e = true)
    ∧ (∀ n v req2 res, is_ip_allowed cfg "127.0.0.1" = true →
      process_request rm vN vV cfg scripts req = .ok req2 →
      req2.method ≠ Method.CONNECT →
      upstream req2 = .ok res →
      is_domain_allowed cfg req.host = true →
      (n, v) ∈ responseHeadersOut rm cfg scripts req.host res →
      (vN n = false ∨ vV v = false) →
      ∃ e, process_response rm vN vV cfg scripts req.host res = .error e
        ∧ handle_request rm vN vV cfg scripts upstream tunnelOk req =
            ⟨create_error_response e, true⟩
        ∧ (create_error_response e).status = 500
        ∧ strContains (create_error_response e).body e = true) := by
  constructor
  · intro n v hip hdom hmem hbad
    obtain ⟨e, he⟩ := map_to_headers_error_of_invalid vN vV _ n v hmem hbad
    have hpr : process_request rm vN vV cfg scripts req = .error e := by
      rw [process_request, if_neg (by simp [hdom]), he]
    refine ⟨e, hpr, ?_, rfl, ?_⟩
    · simp [handle_request, hip, hpr]
    · show strContains (errorBodyPre ++ e ++ errorBodyPost) e = true
      exact strContains_append_middle _ _ _
  · intro n v req2 res hip hpr hconn hup hdom hmem hbad
    obtain ⟨e, he⟩ := map_to_headers_error_of_invalid vN vV _ n v hmem hbad
    have hpe : process_response rm vN vV cfg scripts req.host res = .error e := by
      rw [process_response, if_neg (by simp [hdom]), he]
    refine ⟨e, hpe, ?_, rfl, ?_⟩
    · simp [handle_request, hip, hpr, hconn, hup, hpe]
    · show strContains (errorBodyPre ++ e ++ errorBodyPost) e = true
      exact strContains_append_middle _ _ _

/-- C9, witness: a rule injects the name "Bad Header" (with a space); the
    rebuild fails and the handler produces the 500 page carrying the
    cause. -/
theorem C9_witness :
    ∃ e, process_request regexNone headerNameNoSpace headerAlwaysValid c9Config
          [c9Script] ⟨Method.GET, "ok.com", [], ""⟩ = .error e
      ∧ handle_request regexNone headerNameNoSpace headerAlwaysValid c9Config
          [c9Script] c1Upstream true ⟨Method.GET, "ok.com", [], ""⟩ =
            ⟨create_error_response e, false⟩
      ∧ (create_error_response e).status = 500
      ∧ strContains (create_error_response e).body e = true :=
  (C9_invalid_header_visible_500 regexNone headerNameNoSpace headerAlwaysValid
    c9Config [c9Script] c1Upstream true ⟨Method.GET, "ok.com", [], ""⟩).1
    "Bad Header" "1" (by decide) (by decide) (by decide) (Or.inl (by decide))

/-- C10, counterexample: for a GET request the client body bytes "hi" are
    discarded, but the forwarded body is not empty as claimed — a matching
    Body rule appends its payload to the (empty) body string, so the
    forwarded request carries the byte of "Z". -/
theorem C10_counterexample :
    bodyBytesForward regexNone c10Config [c10BodyScript] "example.com" Method.GET
      [104, 105] = [90]
    ∧ ([90] : List Nat) ≠ ([] : List Nat) := by
  decide

/-- C10 (amended): for an allowed domain, process_request reads the body
    only for POST and PUT.  Any other method discards the client body and
    forwards exactly the re-encoded payloads appended by matching Body
    rules (empty only when no such rule fires); for POST/PUT the forwarded
    body is the re-encoding of the lossy UTF-8 decoding of the client
    bytes plus appended payloads, so a valid-UTF-8 body with no firing
    Body rule is forwarded byte-identical, while invalid sequences are
    replaced.  (For a disallowed domain the request is returned untouched,
    original body included.) -/
theorem C10_body_forwarding (rm : String → String → Bool) (cfg : Config)
    (scripts : List InjectionScript) (host : String) (method : Method)
    (b : List Nat) :
    (is_domain_allowed cfg host = false →
      bodyBytesForward rm cfg scripts host method b = b)
    ∧ (is_domain_allowed cfg host = true → method ≠ Method.POST →
      method ≠ Method.PUT →
      bodyBytesForward rm cfg scripts host method b =
        utf8Encode (requestBodyCps rm cfg scripts host []))
    ∧ (is_domain_allowed cfg host = true →
      (method = Method.POST ∨ method = Method.PUT) →
      bodyBytesForward rm cfg scripts host method b =
        utf8Encode (requestBodyCps rm cfg scripts host (utf8DecodeLossy b)))
    ∧ (∀ cps, is_domain_allowed cfg host = true →
      (method = Method.POST ∨ method = Method.PUT) →
      (∀ c ∈ cps, ValidCp c) → b = utf8Encode cps →
      (∀ s ∈ get_scripts_for_domain rm scripts host,
        s.inject_type = InjectType.Body → s.script_content = "") →
      bodyBytesForward rm cfg scripts host method b = b) := by
  refine ⟨?_, ?_, ?_, ?_⟩
  · intro hdom
    rw [bodyBytesForward, if_pos (by simp [hdom])]
  · intro hdom hp hq
    simp [bodyBytesForward, hdom, hp, hq]
  · intro hdom hm
    rcases hm with h | h <;> simp [bodyBytesForward, hdom, h]
  · intro cps hdom hm hval hb hnoinj
    have h3 : bodyBytesForward rm cfg scripts host method b =
        utf8Encode (requestBodyCps rm cfg scripts host (utf8DecodeLossy b)) := by
      rcases hm with h | h <;> simp [bodyBytesForward, hdom, h]
    rw [h3, hb, utf8_roundtrip cps hval,
      requestBodyCps_id rm cfg scripts host cps hnoinj, ← hb]

/-- C10, witness: with no Body rule firing, a POST body of the invalid
    byte 0xFF is forwarded as the replacement character's UTF-8 bytes,
    while the valid-UTF-8 POST body "hi" is forwarded byte-identical. -/
theorem C10_witness :
    bodyBytesForward regexNone c10Config [] "example.com" Method.POST [0xFF] =
      [0xEF, 0xBF, 0xBD]
    ∧ bodyBytesForward regexNone c10Config [] "example.com" Method.POST [104, 105] =
      [104, 105] := by
  constructor
  · rw [(C10_body_forwarding regexNone c10Config [] "example.com" Method.POST
      [0xFF]).2.2.1 (by decide) (Or.inl rfl)]
    decide
  · exact (C10_body_forwarding regexNone c10Config [] "example.com" Method.POST
      [104, 105]).2.2.2 [104, 105] (by decide) (Or.inl rfl) (by decide) (by decide)
      (by decide)

end RustyProxy
